import Mathlib

set_option linter.unusedVariables false

/-!
Shallow embedding of `multi_indexed_collection.py` (class `MultiIndexedCollection`
and the `AutoUpdatingItem` mix-in).

Python dicts are rendered as association lists with unique keys (`alookup`,
`ainsert`, `aerase` mirror `d[k]`, `d[k] = v`, `del d[k]`); objects are
identified by a numeric id (Python object identity), and an object's readable
attributes are an association list from attribute name to value.  Raised
exceptions are rendered as an `Err` value returned next to the post-state, so
mutations performed before a raise are kept, exactly as in Python.
-/

/-- Python values stored as attribute values (any hashable object; the shapes
exercised by the repository are strings and ints). -/
inductive PyVal where
| vstr : String → PyVal
| vint : Int → PyVal
deriving DecidableEq, Repr

abbrev PropName := String

abbrev ObjId := Nat

/-- Dict lookup `d[k]` on an association list (keys are unique in every list a
Python dict is modelled by). -/
def alookup {α β : Type} [DecidableEq α] : List (α × β) → α → Option β
| [], _ => none
| (k, b) :: t, a => if k = a then some b else alookup t a

/-- Dict write `d[k] = b`: overwrite in place, else append (dict insertion
order). -/
def ainsert {α β : Type} [DecidableEq α] : List (α × β) → α → β → List (α × β)
| [], a, b => [(a, b)]
| (k, c) :: t, a, b => if k = a then (a, b) :: t else (k, c) :: ainsert t a b

/-- Dict deletion `del d[k]` of a present key (callers only delete keys they
have just looked up). -/
def aerase {α β : Type} [DecidableEq α] : List (α × β) → α → List (α × β)
| [], _ => []
| (k, c) :: t, a => if k = a then t else (k, c) :: aerase t a

/-- `d.keys()`. -/
def akeys {α β : Type} (l : List (α × β)) : List α := l.map Prod.fst

/-- One per-property sub-map `self._dicts[prop]`: value → object. -/
abbrev SubMap := List (PyVal × ObjId)

/-- `self._dicts`: property name → sub-map. -/
abbrev Dicts := List (PropName × SubMap)

/-- One registry entry `self._propdict[obj]`: property name → value last
indexed. -/
abbrev Snapshot := List (PropName × PyVal)

/-- The state of a `MultiIndexedCollection` instance. -/
structure MIC where
  props : List PropName
  dicts : Dicts
  propdict : List (ObjId × Snapshot)
  autoUpdate : Bool
deriving DecidableEq, Repr

/-- The externally owned object: its readable attributes, whether it is an
`AutoUpdatingItem` instance, and (for such instances) the
`_multi_indexed_collections` list, holding collection ids. -/
structure ObjState where
  attrs : List (PropName × PyVal)
  isAuto : Bool
  bound : List Nat
deriving DecidableEq, Repr

/-- The exceptions the module can raise, with their payloads. -/
inductive Err where
| keyErrDup : PropName → PyVal → Err
| keyErrObj : ObjId → Err
| keyErrNotFound : PropName → PyVal → Err
| keyErrMissingProp : PropName → Err
| keyErrNoneKey : Err
| valueError : Err
| attributeError : String → Err
| badReference : Err
deriving DecidableEq, Repr

/-- Which of the `Err` kinds are Python `KeyError`s (the only exception class
`discard` swallows). -/
def Err.isKeyError : Err → Bool
| keyErrDup _ _ => true
| keyErrObj _ => true
| keyErrNotFound _ _ => true
| keyErrMissingProp _ => true
| keyErrNoneKey => true
| _ => false

/-- `{prop: getattr(obj, prop) for prop in self._properties if hasattr(obj, prop)}`. -/
def propResults (props : List PropName) (attrs : List (PropName × PyVal)) : Snapshot :=
  props.filterMap (fun p => (alookup attrs p).map (fun v => (p, v)))

/-- The duplicate-key scan of `add` / `update_item`:
`for (prop, val) in pairs: if val in self._dicts[prop].keys(): raise KeyError(...)`
(an unconfigured `prop` would itself raise `KeyError(prop)`). -/
def dupCheck (dicts : Dicts) : Snapshot → Option Err
| [] => none
| (p, v) :: t =>
  match alookup dicts p with
  | none => some (Err.keyErrMissingProp p)
  | some d => if (alookup d v).isSome then some (Err.keyErrDup p v) else dupCheck dicts t

/-- `self._dicts[prop][val] = obj` (the sub-map exists whenever this runs: the
duplicate scan has already looked it up). -/
def insertPair (oid : ObjId) (dicts : Dicts) (pv : PropName × PyVal) : Dicts :=
  match alookup dicts pv.1 with
  | some d => ainsert dicts pv.1 (ainsert d pv.2 oid)
  | none => dicts

def insertAll (dicts : Dicts) (l : Snapshot) (oid : ObjId) : Dicts :=
  l.foldl (insertPair oid) dicts

/-- `del self._dicts[prop][val]` (the entry exists whenever this runs: it is
recorded in the object's snapshot). -/
def deletePair (dicts : Dicts) (pv : PropName × PyVal) : Dicts :=
  match alookup dicts pv.1 with
  | some d => ainsert dicts pv.1 (aerase d pv.2)
  | none => dicts

def deleteAll (dicts : Dicts) (l : Snapshot) : Dicts :=
  l.foldl deletePair dicts

/-- `MultiIndexedCollection.add(obj)`.  `cid` is this collection's identity, the
value appended to the object's `_multi_indexed_collections` list.  Returns the
collection's post-state, the object's post-state and the raised error, if
any. -/
def MIC.addOp (c : MIC) (cid : Nat) (oid : ObjId) (o : ObjState) :
    MIC × ObjState × Option Err :=
  if (alookup c.propdict oid).isSome then (c, o, none)
  else
    let o1 := if o.isAuto then { o with bound := o.bound ++ [cid] } else o
    let pr := propResults c.props o.attrs
    match dupCheck c.dicts pr with
    | some e => (c, o1, some e)
    | none =>
      ({ c with dicts := insertAll c.dicts pr oid,
                propdict := ainsert c.propdict oid pr }, o1, none)

/-- `MultiIndexedCollection.find(prop, value)`.  A missing sub-map raises a
`KeyError` whose single argument is `prop`; `find` reformats whatever
`KeyError` it catches, so that case surfaces the property name in the value
slot of the message. -/
def MIC.findOp (c : MIC) (p : PropName) (v : PyVal) : Except Err ObjId :=
  match alookup c.dicts p with
  | none => Except.error (Err.keyErrNotFound p (PyVal.vstr p))
  | some d =>
    match alookup d v with
    | none => Except.error (Err.keyErrNotFound p v)
    | some oid => Except.ok oid

/-- `__contains__`: `val in self._dicts[prop]`. -/
def MIC.containsOp (c : MIC) (p : PropName) (v : PyVal) : Except Err Bool :=
  match alookup c.dicts p with
  | none => Except.error (Err.keyErrMissingProp p)
  | some d => Except.ok (alookup d v).isSome

/-- `__len__`: `len(self._propdict)`. -/
def MIC.sizeOp (c : MIC) : Nat := c.propdict.length

/-- `list.remove(a)`: drop the first occurrence, `none` when absent (Python
raises `ValueError` then). -/
def removeFirst : List Nat → Nat → Option (List Nat)
| [], _ => none
| x :: t, a => if x = a then some t else (removeFirst t a).map (fun t1 => x :: t1)

/-- `MultiIndexedCollection.remove(obj)`. -/
def MIC.removeOp (c : MIC) (cid : Nat) (oid : ObjId) (o : ObjState) :
    MIC × ObjState × Option Err :=
  match alookup c.propdict oid with
  | none => (c, o, some (Err.keyErrObj oid))
  | some prev =>
    if o.isAuto then
      match removeFirst o.bound cid with
      | none => (c, o, some Err.valueError)
      | some b1 =>
        ({ c with dicts := deleteAll c.dicts prev, propdict := aerase c.propdict oid },
         { o with bound := b1 }, none)
    else
      ({ c with dicts := deleteAll c.dicts prev, propdict := aerase c.propdict oid },
       o, none)

/-- `MultiIndexedCollection.discard(obj)`: `remove` with `KeyError` swallowed. -/
def MIC.discardOp (c : MIC) (cid : Nat) (oid : ObjId) (o : ObjState) :
    MIC × ObjState × Option Err :=
  match c.removeOp cid oid o with
  | (c1, o1, some e) => if e.isKeyError then (c1, o1, none) else (c1, o1, some e)
  | (c1, o1, none) => (c1, o1, none)

/-- `MultiIndexedCollection.update_item(obj)`.  The object's state is not
touched, so only the collection's post-state and the error are returned. -/
def MIC.updateItemOp (c : MIC) (oid : ObjId) (o : ObjState) : MIC × Option Err :=
  let pr := propResults c.props o.attrs
  match alookup c.propdict oid with
  | none => (c, some (Err.keyErrObj oid))
  | some prev =>
    let oldProps := prev.filter (fun pv => decide (pv ∉ pr))
    let newProps := pr.filter (fun pv => decide (pv ∉ prev))
    match dupCheck c.dicts newProps with
    | some e => (c, some e)
    | none =>
      ({ c with dicts := insertAll (deleteAll c.dicts oldProps) newProps oid,
                propdict := ainsert c.propdict oid pr }, none)

/-- `MultiIndexedCollection.clear()`. -/
def MIC.clearOp (c : MIC) : MIC :=
  { c with dicts := c.props.map (fun p => (p, ([] : SubMap))), propdict := [] }

/-- The possible results of `keys` / `values`: a sequence of objects, a
sequence of values, or a raised error. -/
inductive QueryRes where
| objs : List ObjId → QueryRes
| vals : List PyVal → QueryRes
| qerr : Err → QueryRes
deriving DecidableEq, Repr

/-- Python truthiness of the optional `prop` argument (`None` and `""` are
falsy). -/
def truthyProp : Option PropName → Bool
| none => false
| some p => decide (p ≠ "")

/-- `MultiIndexedCollection.keys(prop=None)`, exactly as written:
`if prop: return self._propdict.keys() else: return self._dicts[prop].keys()`. -/
def MIC.keysOp (c : MIC) (prop : Option PropName) : QueryRes :=
  if truthyProp prop then QueryRes.objs (akeys c.propdict)
  else
    match prop with
    | none => QueryRes.qerr Err.keyErrNoneKey
    | some p =>
      match alookup c.dicts p with
      | none => QueryRes.qerr (Err.keyErrMissingProp p)
      | some d => QueryRes.vals (akeys d)

/-- `MultiIndexedCollection.values(prop=None)`, exactly as written:
`if prop: return self._dicts[prop].keys() else: return self._propdict.keys()`. -/
def MIC.valuesOp (c : MIC) (prop : Option PropName) : QueryRes :=
  if truthyProp prop then
    match prop with
    | none => QueryRes.objs (akeys c.propdict)
    | some p =>
      match alookup c.dicts p with
      | none => QueryRes.qerr (Err.keyErrMissingProp p)
      | some d => QueryRes.vals (akeys d)
  else QueryRes.objs (akeys c.propdict)

/-- The attribute names a `MultiIndexedCollection` instance exposes (set in
`__init__`); `__copy__` reads `self.dicts`, which is not among them. -/
def MIC.hasAttr (c : MIC) (name : String) : Bool :=
  decide (name ∈ ["_properties", "_dict_type", "_dicts", "_propdict", "_auto_update"])

/-- `__copy__`: builds `other`, copies `_propdict` into it, then evaluates
`self.dicts.copy()` — `dicts` is not an attribute, so `AttributeError` is
raised; even on the success path the method has no return statement, so it
would return `None` (rendered as `Unit`). -/
def MIC.copyDunder (c : MIC) : Except Err Unit :=
  let other : MIC :=
    { props := c.props, dicts := c.props.map (fun p => (p, ([] : SubMap))),
      propdict := [], autoUpdate := false }
  let other1 : MIC := { other with propdict := c.propdict }
  if c.hasAttr "dicts" then Except.ok () else Except.error (Err.attributeError "dicts")

/-- `copy`: runs `self.__copy__()` and, lacking a return statement, returns
`None`. -/
def MIC.copyOp (c : MIC) : Except Err Unit :=
  match c.copyDunder with
  | Except.error e => Except.error e
  | Except.ok _ => Except.ok ()

/-- `_RESTRICTED_NAMES`: attribute writes under these names do not notify. -/
def RESTRICTED_NAMES : List String :=
  ["_multi_indexed_collections", "__setattr__", "__dict__", "__class__"]

/-- The notification loop of `AutoUpdatingItem.__setattr__`:
`for collection in self._multi_indexed_collections: collection.update_item(self)`,
stopping at the first raised error (the exception propagates).  Collections
live in a store keyed by collection id. -/
def notifyAll (oid : ObjId) (o : ObjState) :
    List Nat → List (Nat × MIC) → List (Nat × MIC) × Option Err
| [], colls => (colls, none)
| cid :: rest, colls =>
  match alookup colls cid with
  | none => (colls, some Err.badReference)
  | some c =>
    match c.updateItemOp oid o with
    | (c1, none) => notifyAll oid o rest (ainsert colls cid c1)
    | (c1, some e) => (ainsert colls cid c1, some e)

/-- `AutoUpdatingItem.__setattr__(name, value)`: writes the attribute, then,
unless the name is restricted, notifies every bound collection in order. -/
def setattrOp (colls : List (Nat × MIC)) (oid : ObjId) (o : ObjState)
    (name : PropName) (v : PyVal) : List (Nat × MIC) × ObjState × Option Err :=
  let o1 : ObjState := { o with attrs := ainsert o.attrs name v }
  if name ∈ RESTRICTED_NAMES then (colls, o1, none)
  else
    match notifyAll oid o1 o1.bound colls with
    | (colls1, e) => (colls1, o1, e)

/-- The collection state `__init__(properties)` produces. -/
def MIC.init (props : List PropName) (autoUpdate : Bool) : MIC :=
  { props := props, dicts := props.map (fun p => (p, ([] : SubMap))),
    propdict := [], autoUpdate := autoUpdate }

/-- The representation invariant of a reachable collection state: the spec's
invariant I2 (the `forward` and `backward` fields) together with the
structural facts a Python dict provides for free (unique keys everywhere,
one sub-map per configured property, snapshots mention only configured
properties). -/
structure MicInv (c : MIC) : Prop where
  propsNodup : c.props.Nodup
  dictsKeys : ∀ p, (alookup c.dicts p).isSome ↔ p ∈ c.props
  subNodup : ∀ p d, alookup c.dicts p = some d → (akeys d).Nodup
  pdNodup : (akeys c.propdict).Nodup
  snapNodup : ∀ oid s, alookup c.propdict oid = some s → (akeys s).Nodup
  snapProps : ∀ oid s p, alookup c.propdict oid = some s → p ∈ akeys s → p ∈ c.props
  forward : ∀ oid s p v, alookup c.propdict oid = some s → alookup s p = some v →
    ∃ d, alookup c.dicts p = some d ∧ alookup d v = some oid
  backward : ∀ p d v oid, alookup c.dicts p = some d → alookup d v = some oid →
    ∃ s, alookup c.propdict oid = some s ∧ alookup s p = some v

/-- A decidable restatement of `MicInv` for concrete states (quantifiers over
list members instead of lookups). -/
def MicInvC (c : MIC) : Prop :=
  c.props.Nodup ∧
  (∀ p ∈ akeys c.dicts, p ∈ c.props) ∧
  (∀ p ∈ c.props, p ∈ akeys c.dicts) ∧
  (∀ pd ∈ c.dicts, (akeys pd.2).Nodup) ∧
  (akeys c.propdict).Nodup ∧
  (∀ os ∈ c.propdict, (akeys os.2).Nodup ∧
    ∀ pv ∈ os.2, (alookup c.dicts pv.1).bind (fun d => alookup d pv.2) = some os.1) ∧
  (∀ pd ∈ c.dicts, ∀ vo ∈ pd.2,
    (alookup c.propdict vo.2).bind (fun s => alookup s pd.1) = some vo.1)

instance (c : MIC) : Decidable (MicInvC c) := by
  unfold MicInvC; infer_instance

/-- Concrete states used to instantiate the claims: a collection over the
single property `name`, holding object `1` under the value `John`. -/
def cEx : MIC :=
  { props := ["name"], dicts := [("name", [(PyVal.vstr "John", 1)])],
    propdict := [(1, [("name", PyVal.vstr "John")])], autoUpdate := false }

/-- The stored object `1` as an auto-updating item bound to collection `0`. -/
def oEx : ObjState :=
  { attrs := [("name", PyVal.vstr "John")], isAuto := true, bound := [0] }

/-- A fresh auto-updating object (id `2`) whose `name` collides with the
stored object's. -/
def oColl : ObjState :=
  { attrs := [("name", PyVal.vstr "John")], isAuto := true, bound := [] }

/-- A fresh object (id `2`) with a non-colliding `name`. -/
def oFresh : ObjState :=
  { attrs := [("name", PyVal.vstr "Pete")], isAuto := true, bound := [] }


/-! ### Association-list lemmas -/

theorem akeys_nil {α β : Type} : akeys ([] : List (α × β)) = [] := rfl

theorem akeys_cons {α β : Type} (a : α) (b : β) (t : List (α × β)) :
    akeys ((a, b) :: t) = a :: akeys t := rfl

theorem alookup_ainsert_self {α β : Type} [DecidableEq α] (l : List (α × β)) (a : α) (b : β) :
    alookup (ainsert l a b) a = some b := by
  induction l with
  | nil => simp [ainsert, alookup]
  | cons hd t ih =>
    obtain ⟨k, c⟩ := hd
    by_cases hk : k = a
    · simp [ainsert, alookup, hk]
    · simp only [ainsert, if_neg hk, alookup]
      exact ih

theorem alookup_ainsert_ne {α β : Type} [DecidableEq α] (l : List (α × β)) (a a' : α) (b : β)
    (h : a' ≠ a) : alookup (ainsert l a b) a' = alookup l a' := by
  have h2 : a ≠ a' := Ne.symm h
  induction l with
  | nil => simp [ainsert, alookup, h2]
  | cons hd t ih =>
    obtain ⟨k, c⟩ := hd
    by_cases hk : k = a
    · subst hk
      simp [ainsert, alookup, h2]
    · simp only [ainsert, if_neg hk, alookup]
      rw [ih]

theorem alookup_aerase_ne {α β : Type} [DecidableEq α] (l : List (α × β)) (a a' : α)
    (h : a' ≠ a) : alookup (aerase l a) a' = alookup l a' := by
  have h2 : a ≠ a' := Ne.symm h
  induction l with
  | nil => simp [aerase, alookup]
  | cons hd t ih =>
    obtain ⟨k, c⟩ := hd
    by_cases hk : k = a
    · subst hk
      simp [aerase, alookup, h2]
    · simp only [aerase, if_neg hk, alookup]
      rw [ih]

theorem mem_akeys_iff {α β : Type} (l : List (α × β)) (a : α) :
    a ∈ akeys l ↔ ∃ b, (a, b) ∈ l := by
  simp only [akeys, List.mem_map]
  constructor
  · rintro ⟨⟨k, b⟩, hm, rfl⟩
    exact ⟨b, hm⟩
  · rintro ⟨b, hm⟩
    exact ⟨(a, b), hm, rfl⟩

theorem alookup_isSome_iff {α β : Type} [DecidableEq α] (l : List (α × β)) (a : α) :
    (alookup l a).isSome ↔ a ∈ akeys l := by
  induction l with
  | nil => simp [alookup, akeys_nil]
  | cons hd t ih =>
    obtain ⟨k, c⟩ := hd
    by_cases hk : k = a
    · subst hk
      simp [alookup, akeys_cons]
    · rw [akeys_cons]
      simp only [alookup, if_neg hk, List.mem_cons, ih]
      constructor
      · exact fun hm => Or.inr hm
      · rintro (rfl | hm)
        · exact absurd rfl hk
        · exact hm

theorem alookup_eq_none_iff {α β : Type} [DecidableEq α] (l : List (α × β)) (a : α) :
    alookup l a = none ↔ a ∉ akeys l := by
  rw [← alookup_isSome_iff]
  cases alookup l a <;> simp

theorem alookup_mem {α β : Type} [DecidableEq α] {l : List (α × β)} {a : α} {b : β}
    (h : alookup l a = some b) : (a, b) ∈ l := by
  induction l with
  | nil => simp [alookup] at h
  | cons hd t ih =>
    obtain ⟨k, c⟩ := hd
    by_cases hk : k = a
    · subst hk
      simp [alookup] at h
      simp [h]
    · simp only [alookup, if_neg hk] at h
      exact List.mem_cons_of_mem _ (ih h)

theorem mem_alookup {α β : Type} [DecidableEq α] {l : List (α × β)} {a : α} {b : β}
    (hnd : (akeys l).Nodup) (h : (a, b) ∈ l) : alookup l a = some b := by
  induction l with
  | nil => cases h
  | cons hd t ih =>
    obtain ⟨k, c⟩ := hd
    rw [akeys_cons, List.nodup_cons] at hnd
    rcases List.mem_cons.mp h with h1 | h1
    · cases h1
      simp [alookup]
    · have hk : k ≠ a := by
        rintro rfl
        exact hnd.1 ((mem_akeys_iff t k).mpr ⟨b, h1⟩)
      simp only [alookup, if_neg hk]
      exact ih hnd.2 h1

theorem akeys_aerase_sublist {α β : Type} [DecidableEq α] (l : List (α × β)) (a : α) :
    (akeys (aerase l a)).Sublist (akeys l) := by
  induction l with
  | nil => simp [aerase]
  | cons hd t ih =>
    obtain ⟨k, c⟩ := hd
    by_cases hk : k = a
    · rw [aerase, if_pos hk, akeys_cons]
      exact List.sublist_cons_self _ _
    · rw [aerase, if_neg hk, akeys_cons, akeys_cons]
      exact ih.cons₂ _

theorem mem_of_mem_aerase {α β : Type} [DecidableEq α] {l : List (α × β)} {a : α}
    {x : α × β} (h : x ∈ aerase l a) : x ∈ l := by
  induction l with
  | nil => simp [aerase] at h
  | cons hd t ih =>
    obtain ⟨k, c⟩ := hd
    by_cases hk : k = a
    · rw [aerase, if_pos hk] at h
      exact List.mem_cons_of_mem _ h
    · rw [aerase, if_neg hk] at h
      rcases List.mem_cons.mp h with h1 | h1
      · exact h1 ▸ List.mem_cons_self _ _
      · exact List.mem_cons_of_mem _ (ih h1)

theorem alookup_aerase_self {α β : Type} [DecidableEq α] (l : List (α × β)) (a : α)
    (hnd : (akeys l).Nodup) : alookup (aerase l a) a = none := by
  induction l with
  | nil => simp [aerase, alookup]
  | cons hd t ih =>
    obtain ⟨k, c⟩ := hd
    rw [akeys_cons, List.nodup_cons] at hnd
    by_cases hk : k = a
    · subst hk
      rw [aerase, if_pos rfl, alookup_eq_none_iff]
      exact hnd.1
    · rw [aerase, if_neg hk]
      simp only [alookup, if_neg hk]
      exact ih hnd.2

theorem mem_akeys_ainsert {α β : Type} [DecidableEq α] (l : List (α × β)) (a x : α) (b : β) :
    x ∈ akeys (ainsert l a b) ↔ x = a ∨ x ∈ akeys l := by
  induction l with
  | nil => simp [ainsert, akeys]
  | cons hd t ih =>
    obtain ⟨k, c⟩ := hd
    by_cases hk : k = a
    · subst hk
      rw [ainsert, if_pos rfl, akeys_cons, akeys_cons]
      simp only [List.mem_cons]
      tauto
    · rw [ainsert, if_neg hk, akeys_cons, akeys_cons]
      simp only [List.mem_cons, ih]
      tauto

theorem akeys_ainsert_nodup {α β : Type} [DecidableEq α] (l : List (α × β)) (a : α) (b : β)
    (hnd : (akeys l).Nodup) : (akeys (ainsert l a b)).Nodup := by
  induction l with
  | nil => simp [ainsert, akeys]
  | cons hd t ih =>
    obtain ⟨k, c⟩ := hd
    rw [akeys_cons, List.nodup_cons] at hnd
    by_cases hk : k = a
    · subst hk
      rw [ainsert, if_pos rfl, akeys_cons, List.nodup_cons]
      exact hnd
    · rw [ainsert, if_neg hk, akeys_cons, List.nodup_cons]
      refine ⟨?_, ih hnd.2⟩
      intro hmem
      rcases (mem_akeys_ainsert t a k b).mp hmem with h1 | h1
      · exact hk h1
      · exact hnd.1 h1

theorem akeys_aerase_nodup {α β : Type} [DecidableEq α] (l : List (α × β)) (a : α)
    (hnd : (akeys l).Nodup) : (akeys (aerase l a)).Nodup := by
  exact (akeys_aerase_sublist l a).nodup hnd

/-! ### propResults lemmas -/

theorem alookup_propResults (props : List PropName) (attrs : List (PropName × PyVal))
    (p : PropName) :
    alookup (propResults props attrs) p = if p ∈ props then alookup attrs p else none := by
  induction props with
  | nil => simp [propResults, alookup]
  | cons q t ih =>
    simp only [propResults] at ih ⊢
    rw [List.filterMap_cons]
    cases hq : alookup attrs q with
    | none =>
      simp only [Option.map_none']
      rw [ih]
      by_cases hp : p = q
      · subst hp
        by_cases hpt : p ∈ t <;> simp [hpt, hq]
      · simp [List.mem_cons, hp]
    | some w =>
      simp only [Option.map_some']
      by_cases hp : q = p
      · subst hp
        simp [alookup, hq]
      · simp only [alookup, if_neg hp]
        rw [ih]
        have hpq : p ≠ q := fun h => hp (Eq.symm h)
        simp [List.mem_cons, hpq]

theorem mem_propResults {props : List PropName} {attrs : List (PropName × PyVal)}
    {p : PropName} {v : PyVal} :
    (p, v) ∈ propResults props attrs ↔ p ∈ props ∧ alookup attrs p = some v := by
  induction props with
  | nil => simp [propResults]
  | cons q t ih =>
    simp only [propResults] at ih ⊢
    rw [List.filterMap_cons]
    cases hq : alookup attrs q with
    | none =>
      simp only [Option.map_none']
      rw [ih, List.mem_cons]
      constructor
      · rintro ⟨hp, hv⟩
        exact ⟨Or.inr hp, hv⟩
      · rintro ⟨hp | hp, hv⟩
        · subst hp
          rw [hq] at hv
          cases hv
        · exact ⟨hp, hv⟩
    | some w =>
      simp only [Option.map_some']
      rw [List.mem_cons, ih, List.mem_cons]
      constructor
      · rintro (he | ⟨hp, hv⟩)
        · cases he
          exact ⟨Or.inl rfl, hq⟩
        · exact ⟨Or.inr hp, hv⟩
      · rintro ⟨hp | hp, hv⟩
        · subst hp
          rw [hq] at hv
          injection hv with h1
          subst h1
          exact Or.inl rfl
        · exact Or.inr ⟨hp, hv⟩

theorem akeys_propResults (props : List PropName) (attrs : List (PropName × PyVal)) :
    akeys (propResults props attrs) = props.filter (fun p => (alookup attrs p).isSome) := by
  induction props with
  | nil => rfl
  | cons q t ih =>
    simp only [propResults] at ih ⊢
    rw [List.filterMap_cons, List.filter_cons]
    cases hq : alookup attrs q with
    | none => simpa [hq] using ih
    | some w => simp [hq, akeys_cons, ih]

theorem akeys_propResults_nodup {props : List PropName} (attrs : List (PropName × PyVal))
    (hnd : props.Nodup) : (akeys (propResults props attrs)).Nodup := by
  rw [akeys_propResults]
  exact hnd.filter _

theorem mem_akeys_propResults {props : List PropName} {attrs : List (PropName × PyVal)}
    {p : PropName} (h : p ∈ akeys (propResults props attrs)) : p ∈ props := by
  rw [akeys_propResults] at h
  exact (List.mem_filter.mp h).1

/-! ### dupCheck lemmas -/

theorem dupCheck_eq_none_iff (dicts : Dicts) (l : Snapshot)
    (hdom : ∀ pv ∈ l, ∃ d, alookup dicts pv.1 = some d) :
    dupCheck dicts l = none ↔
      ∀ pv ∈ l, ∀ d, alookup dicts pv.1 = some d → alookup d pv.2 = none := by
  induction l with
  | nil => simp [dupCheck]
  | cons pv t ih =>
    obtain ⟨p, v⟩ := pv
    obtain ⟨d, hd⟩ := hdom (p, v) (List.mem_cons_self _ _)
    have hdomt : ∀ pv ∈ t, ∃ d, alookup dicts pv.1 = some d :=
      fun pv h => hdom pv (List.mem_cons_of_mem _ h)
    simp only [dupCheck, hd]
    by_cases hv : (alookup d v).isSome
    · simp only [hv, if_pos]
      constructor
      · intro h
        cases h
      · intro hall
        have h1 := hall (p, v) (List.mem_cons_self _ _) d hd
        rw [h1] at hv
        cases hv
    · simp only [hv, if_neg, Bool.false_eq_true, not_false_eq_true]
      rw [ih hdomt]
      constructor
      · intro h pv hm d' hd'
        rcases List.mem_cons.mp hm with h1 | h1
        · cases h1
          rw [hd'] at hd
          injection hd with h2
          subst h2
          exact Option.not_isSome_iff_eq_none.mp hv
        · exact h pv h1 d' hd'
      · intro h pv hm d' hd'
        exact h pv (List.mem_cons_of_mem _ hm) d' hd'

theorem dupCheck_eq_some {dicts : Dicts} {l : Snapshot} {e : Err}
    (hdom : ∀ pv ∈ l, ∃ d, alookup dicts pv.1 = some d)
    (h : dupCheck dicts l = some e) :
    ∃ p v d, e = Err.keyErrDup p v ∧ (p, v) ∈ l ∧
      alookup dicts p = some d ∧ (alookup d v).isSome := by
  induction l with
  | nil => cases h
  | cons pv t ih =>
    obtain ⟨p, v⟩ := pv
    obtain ⟨d, hd⟩ := hdom (p, v) (List.mem_cons_self _ _)
    have hdomt : ∀ pv ∈ t, ∃ d, alookup dicts pv.1 = some d :=
      fun pv hm => hdom pv (List.mem_cons_of_mem _ hm)
    simp only [dupCheck, hd] at h
    by_cases hv : (alookup d v).isSome
    · rw [if_pos hv] at h
      injection h with h1
      exact ⟨p, v, d, h1.symm, List.mem_cons_self _ _, hd, hv⟩
    · rw [if_neg (by simpa using hv)] at h
      obtain ⟨p', v', d', he, hm, hd', hv'⟩ := ih hdomt h
      exact ⟨p', v', d', he, List.mem_cons_of_mem _ hm, hd', hv'⟩

/-! ### insertAll / deleteAll lemmas -/

theorem insertAll_cons (dicts : Dicts) (pv : PropName × PyVal) (t : Snapshot) (oid : ObjId) :
    insertAll dicts (pv :: t) oid = insertAll (insertPair oid dicts pv) t oid := rfl

theorem deleteAll_cons (dicts : Dicts) (pv : PropName × PyVal) (t : Snapshot) :
    deleteAll dicts (pv :: t) = deleteAll (deletePair dicts pv) t := rfl

theorem alookup_insertPair (oid : ObjId) (dicts : Dicts) (q : PropName) (w : PyVal)
    (p : PropName) :
    alookup (insertPair oid dicts (q, w)) p =
      if p = q then (alookup dicts q).map (fun d => ainsert d w oid) else alookup dicts p := by
  simp only [insertPair]
  cases hq : alookup dicts q with
  | none => by_cases hp : p = q <;> simp [hp, hq]
  | some d =>
    by_cases hp : p = q
    · subst hp
      simp [alookup_ainsert_self, hq]
    · simp [hp, alookup_ainsert_ne _ _ _ _ hp]

theorem alookup_deletePair (dicts : Dicts) (q : PropName) (w : PyVal) (p : PropName) :
    alookup (deletePair dicts (q, w)) p =
      if p = q then (alookup dicts q).map (fun d => aerase d w) else alookup dicts p := by
  simp only [deletePair]
  cases hq : alookup dicts q with
  | none => by_cases hp : p = q <;> simp [hp, hq]
  | some d =>
    by_cases hp : p = q
    · subst hp
      simp [alookup_ainsert_self, hq]
    · simp [hp, alookup_ainsert_ne _ _ _ _ hp]

theorem alookup_insertAll_none (oid : ObjId) (l : Snapshot) (dicts : Dicts) (p : PropName)
    (h : alookup l p = none) :
    alookup (insertAll dicts l oid) p = alookup dicts p := by
  induction l generalizing dicts with
  | nil => rfl
  | cons pv t ih =>
    obtain ⟨q, w⟩ := pv
    have hq : q ≠ p := by
      rintro rfl
      simp [alookup] at h
    rw [alookup] at h
    rw [if_neg hq] at h
    rw [insertAll_cons, ih _ h, alookup_insertPair]
    rw [if_neg (fun hc => hq (Eq.symm hc))]

theorem alookup_deleteAll_none (l : Snapshot) (dicts : Dicts) (p : PropName)
    (h : alookup l p = none) :
    alookup (deleteAll dicts l) p = alookup dicts p := by
  induction l generalizing dicts with
  | nil => rfl
  | cons pv t ih =>
    obtain ⟨q, w⟩ := pv
    have hq : q ≠ p := by
      rintro rfl
      simp [alookup] at h
    rw [alookup] at h
    rw [if_neg hq] at h
    rw [deleteAll_cons, ih _ h, alookup_deletePair]
    rw [if_neg (fun hc => hq (Eq.symm hc))]

theorem alookup_insertAll_missing (oid : ObjId) (l : Snapshot) (dicts : Dicts) (p : PropName)
    (h : alookup dicts p = none) :
    alookup (insertAll dicts l oid) p = none := by
  induction l generalizing dicts with
  | nil => exact h
  | cons pv t ih =>
    obtain ⟨q, w⟩ := pv
    rw [insertAll_cons]
    apply ih
    rw [alookup_insertPair]
    by_cases hp : p = q
    · subst hp
      rw [if_pos rfl, h, Option.map_none']
    · rw [if_neg hp]
      exact h

theorem alookup_deleteAll_missing (l : Snapshot) (dicts : Dicts) (p : PropName)
    (h : alookup dicts p = none) :
    alookup (deleteAll dicts l) p = none := by
  induction l generalizing dicts with
  | nil => exact h
  | cons pv t ih =>
    obtain ⟨q, w⟩ := pv
    rw [deleteAll_cons]
    apply ih
    rw [alookup_deletePair]
    by_cases hp : p = q
    · subst hp
      rw [if_pos rfl, h, Option.map_none']
    · rw [if_neg hp]
      exact h

theorem alookup_insertAll_some (oid : ObjId) (l : Snapshot) (dicts : Dicts)
    (p : PropName) (v : PyVal) (d : SubMap) (hnd : (akeys l).Nodup)
    (hl : alookup l p = some v) (hd : alookup dicts p = some d) :
    alookup (insertAll dicts l oid) p = some (ainsert d v oid) := by
  induction l generalizing dicts with
  | nil => cases hl
  | cons pv t ih =>
    obtain ⟨q, w⟩ := pv
    rw [akeys_cons, List.nodup_cons] at hnd
    by_cases hq : q = p
    · subst hq
      rw [alookup, if_pos rfl] at hl
      injection hl with h1
      subst h1
      have ht : alookup t q = none := by
        rw [alookup_eq_none_iff]
        exact hnd.1
      rw [insertAll_cons, alookup_insertAll_none _ _ _ _ ht, alookup_insertPair,
        if_pos rfl, hd, Option.map_some']
    · rw [alookup, if_neg hq] at hl
      rw [insertAll_cons]
      apply ih _ hnd.2 hl
      rw [alookup_insertPair, if_neg (fun hc => hq (Eq.symm hc))]
      exact hd

theorem alookup_deleteAll_some (l : Snapshot) (dicts : Dicts)
    (p : PropName) (v : PyVal) (d : SubMap) (hnd : (akeys l).Nodup)
    (hl : alookup l p = some v) (hd : alookup dicts p = some d) :
    alookup (deleteAll dicts l) p = some (aerase d v) := by
  induction l generalizing dicts with
  | nil => cases hl
  | cons pv t ih =>
    obtain ⟨q, w⟩ := pv
    rw [akeys_cons, List.nodup_cons] at hnd
    by_cases hq : q = p
    · subst hq
      rw [alookup, if_pos rfl] at hl
      injection hl with h1
      subst h1
      have ht : alookup t q = none := by
        rw [alookup_eq_none_iff]
        exact hnd.1
      rw [deleteAll_cons, alookup_deleteAll_none _ _ _ ht, alookup_deletePair,
        if_pos rfl, hd, Option.map_some']
    · rw [alookup, if_neg hq] at hl
      rw [deleteAll_cons]
      apply ih _ hnd.2 hl
      rw [alookup_deletePair, if_neg (fun hc => hq (Eq.symm hc))]
      exact hd

theorem alookup_insertAll_isSome (oid : ObjId) (l : Snapshot) (dicts : Dicts) (p : PropName)
    (hnd : (akeys l).Nodup) :
    (alookup (insertAll dicts l oid) p).isSome = (alookup dicts p).isSome := by
  cases hd : alookup dicts p with
  | none => rw [alookup_insertAll_missing _ _ _ _ hd]
  | some d =>
    cases hl : alookup l p with
    | none => rw [alookup_insertAll_none _ _ _ _ hl, hd]
    | some v =>
      rw [alookup_insertAll_some _ _ _ _ _ _ hnd hl hd]
      rfl

theorem alookup_deleteAll_isSome (l : Snapshot) (dicts : Dicts) (p : PropName)
    (hnd : (akeys l).Nodup) :
    (alookup (deleteAll dicts l) p).isSome = (alookup dicts p).isSome := by
  cases hd : alookup dicts p with
  | none => rw [alookup_deleteAll_missing _ _ _ hd]
  | some d =>
    cases hl : alookup l p with
    | none => rw [alookup_deleteAll_none _ _ _ hl, hd]
    | some v =>
      rw [alookup_deleteAll_some _ _ _ _ _ hnd hl hd]
      rfl

theorem akeys_filter_sublist {α β : Type} (l : List (α × β)) (f : α × β → Bool) :
    (akeys (l.filter f)).Sublist (akeys l) :=
  (List.filter_sublist l).map Prod.fst

theorem mem_filter_not_mem {α β : Type} [DecidableEq α] [DecidableEq β]
    {l m : List (α × β)} {pv : α × β} :
    pv ∈ l.filter (fun x => decide (x ∉ m)) ↔ pv ∈ l ∧ pv ∉ m := by
  simp [List.mem_filter]

theorem alookup_filter_nm_some {α β : Type} [DecidableEq α] [DecidableEq β]
    {l m : List (α × β)} {p : α} {v : β} (hnd : (akeys l).Nodup)
    (hv : alookup l p = some v) (hm : (p, v) ∉ m) :
    alookup (l.filter (fun x => decide (x ∉ m))) p = some v := by
  apply mem_alookup
  · exact (akeys_filter_sublist l _).nodup hnd
  · exact mem_filter_not_mem.mpr ⟨alookup_mem hv, hm⟩

theorem alookup_filter_nm_none1 {α β : Type} [DecidableEq α] [DecidableEq β]
    {l m : List (α × β)} {p : α} {v : β} (hnd : (akeys l).Nodup)
    (hv : alookup l p = some v) (hm : (p, v) ∈ m) :
    alookup (l.filter (fun x => decide (x ∉ m))) p = none := by
  rw [alookup_eq_none_iff]
  intro hmem
  rcases (mem_akeys_iff _ _).mp hmem with ⟨w, hw⟩
  rcases mem_filter_not_mem.mp hw with ⟨hwl, hwm⟩
  have := mem_alookup hnd hwl
  rw [hv] at this
  injection this with h1
  subst h1
  exact hwm hm

theorem alookup_filter_nm_none2 {α β : Type} [DecidableEq α] [DecidableEq β]
    {l m : List (α × β)} {p : α} (hv : alookup l p = none) :
    alookup (l.filter (fun x => decide (x ∉ m))) p = none := by
  rw [alookup_eq_none_iff] at hv ⊢
  intro hmem
  exact hv ((akeys_filter_sublist l _).mem hmem)

theorem alookup_map_nil (props : List PropName) (p : PropName) :
    alookup (props.map (fun q => (q, ([] : SubMap)))) p =
      if p ∈ props then some [] else none := by
  induction props with
  | nil => simp [alookup]
  | cons q t ih =>
    rw [List.map_cons]
    by_cases hq : q = p
    · subst hq
      simp [alookup]
    · simp only [alookup, if_neg hq]
      rw [ih]
      have hpq : p ≠ q := fun h => hq (Eq.symm h)
      simp [List.mem_cons, hpq]

/-! ### The invariant: bridge from the decidable form, and preservation -/

theorem micInv_of_micInvC (c : MIC) (h : MicInvC c) : MicInv c := by
  obtain ⟨h1, h2, h3, h4, h5, h6, h7⟩ := h
  refine ⟨h1, ?_, ?_, h5, ?_, ?_, ?_, ?_⟩
  · intro p
    rw [alookup_isSome_iff]
    exact ⟨h2 p, h3 p⟩
  · intro p d hd
    exact h4 (p, d) (alookup_mem hd)
  · intro oid s hs
    exact (h6 (oid, s) (alookup_mem hs)).1
  · intro oid s p hs hp
    rcases (mem_akeys_iff _ _).mp hp with ⟨v, hv⟩
    have hb := (h6 (oid, s) (alookup_mem hs)).2 (p, v) hv
    cases hd : alookup c.dicts p with
    | none => rw [hd] at hb; cases hb
    | some d =>
      apply h2
      rw [← alookup_isSome_iff, hd]
      rfl
  · intro oid s p v hs hv
    have hb := (h6 (oid, s) (alookup_mem hs)).2 (p, v) (alookup_mem hv)
    cases hd : alookup c.dicts p with
    | none => rw [hd] at hb; cases hb
    | some d =>
      rw [hd] at hb
      exact ⟨d, rfl, hb⟩
  · intro p d v oid hd hv
    have hb := h7 (p, d) (alookup_mem hd) (v, oid) (alookup_mem hv)
    cases hs : alookup c.propdict oid with
    | none => rw [hs] at hb; cases hb
    | some s =>
      rw [hs] at hb
      exact ⟨s, rfl, hb⟩

theorem MicInv.dict_of_prop {c : MIC} (hInv : MicInv c) {p : PropName} (hp : p ∈ c.props) :
    ∃ d, alookup c.dicts p = some d := by
  have h := (hInv.dictsKeys p).mpr hp
  cases hd : alookup c.dicts p with
  | none => rw [hd] at h; cases h
  | some d => exact ⟨d, rfl⟩

theorem MicInv.pr_domain {c : MIC} (hInv : MicInv c) (attrs : List (PropName × PyVal)) :
    ∀ pv ∈ propResults c.props attrs, ∃ d, alookup c.dicts pv.1 = some d := by
  rintro ⟨p, v⟩ hm
  exact hInv.dict_of_prop (mem_propResults.mp hm).1

/-! ### Branch equations for the operations -/

theorem addOp_eq_skip (c : MIC) (cid : Nat) (oid : ObjId) (o : ObjState)
    (h : (alookup c.propdict oid).isSome) :
    c.addOp cid oid o = (c, o, none) := by
  rw [MIC.addOp, if_pos h]

theorem addOp_eq_dup (c : MIC) (cid : Nat) (oid : ObjId) (o : ObjState) (e : Err)
    (h : alookup c.propdict oid = none)
    (hdc : dupCheck c.dicts (propResults c.props o.attrs) = some e) :
    c.addOp cid oid o =
      (c, if o.isAuto then { o with bound := o.bound ++ [cid] } else o, some e) := by
  rw [MIC.addOp]
  rw [if_neg (by rw [h]; simp)]
  simp only [hdc]

theorem addOp_eq_commit (c : MIC) (cid : Nat) (oid : ObjId) (o : ObjState)
    (h : alookup c.propdict oid = none)
    (hdc : dupCheck c.dicts (propResults c.props o.attrs) = none) :
    c.addOp cid oid o =
      ({ c with dicts := insertAll c.dicts (propResults c.props o.attrs) oid,
                propdict := ainsert c.propdict oid (propResults c.props o.attrs) },
       if o.isAuto then { o with bound := o.bound ++ [cid] } else o, none) := by
  rw [MIC.addOp]
  rw [if_neg (by rw [h]; simp)]
  simp only [hdc]

theorem updateOp_eq_noObj (c : MIC) (oid : ObjId) (o : ObjState)
    (h : alookup c.propdict oid = none) :
    c.updateItemOp oid o = (c, some (Err.keyErrObj oid)) := by
  rw [MIC.updateItemOp]
  simp only [h]

theorem updateOp_eq_dup (c : MIC) (oid : ObjId) (o : ObjState) (prev : Snapshot) (e : Err)
    (h : alookup c.propdict oid = some prev)
    (hdc : dupCheck c.dicts
      ((propResults c.props o.attrs).filter (fun pv => decide (pv ∉ prev))) = some e) :
    c.updateItemOp oid o = (c, some e) := by
  rw [MIC.updateItemOp]
  simp only [h, hdc]

theorem updateOp_eq_commit (c : MIC) (oid : ObjId) (o : ObjState) (prev : Snapshot)
    (h : alookup c.propdict oid = some prev)
    (hdc : dupCheck c.dicts
      ((propResults c.props o.attrs).filter (fun pv => decide (pv ∉ prev))) = none) :
    c.updateItemOp oid o =
      ({ c with
          dicts := insertAll
            (deleteAll c.dicts (prev.filter (fun pv =>
              decide (pv ∉ propResults c.props o.attrs))))
            ((propResults c.props o.attrs).filter (fun pv => decide (pv ∉ prev))) oid,
          propdict := ainsert c.propdict oid (propResults c.props o.attrs) }, none) := by
  rw [MIC.updateItemOp]
  simp only [h, hdc]

theorem removeOp_eq_noObj (c : MIC) (cid : Nat) (oid : ObjId) (o : ObjState)
    (h : alookup c.propdict oid = none) :
    c.removeOp cid oid o = (c, o, some (Err.keyErrObj oid)) := by
  rw [MIC.removeOp]
  simp only [h]

theorem removeOp_eq_valueError (c : MIC) (cid : Nat) (oid : ObjId) (o : ObjState)
    (prev : Snapshot) (h : alookup c.propdict oid = some prev)
    (hauto : o.isAuto = true) (hrf : removeFirst o.bound cid = none) :
    c.removeOp cid oid o = (c, o, some Err.valueError) := by
  rw [MIC.removeOp]
  simp only [h, hauto, if_true, hrf]

theorem removeOp_eq_commit_auto (c : MIC) (cid : Nat) (oid : ObjId) (o : ObjState)
    (prev : Snapshot) (b1 : List Nat) (h : alookup c.propdict oid = some prev)
    (hauto : o.isAuto = true) (hrf : removeFirst o.bound cid = some b1) :
    c.removeOp cid oid o =
      ({ c with dicts := deleteAll c.dicts prev, propdict := aerase c.propdict oid },
       { o with bound := b1 }, none) := by
  rw [MIC.removeOp]
  simp only [h, hauto, if_true, hrf]

theorem removeOp_eq_commit_plain (c : MIC) (cid : Nat) (oid : ObjId) (o : ObjState)
    (prev : Snapshot) (h : alookup c.propdict oid = some prev)
    (hauto : o.isAuto = false) :
    c.removeOp cid oid o =
      ({ c with dicts := deleteAll c.dicts prev, propdict := aerase c.propdict oid },
       o, none) := by
  rw [MIC.removeOp]
  simp only [h, hauto, if_false, Bool.false_eq_true]

theorem discardOp_fst (c : MIC) (cid : Nat) (oid : ObjId) (o : ObjState) :
    (c.discardOp cid oid o).1 = (c.removeOp cid oid o).1 := by
  rw [MIC.discardOp]
  rcases hr : c.removeOp cid oid o with ⟨c1, o1, e⟩
  cases e with
  | none => rfl
  | some e1 =>
    by_cases he : e1.isKeyError = true
    · simp [he]
    · simp [he]

theorem micInv_clear (c : MIC) (hInv : MicInv c) : MicInv (c.clearOp) := by
  refine ⟨hInv.propsNodup, ?_, ?_, ?_, ?_, ?_, ?_, ?_⟩
  · intro p
    show (alookup (c.props.map (fun q => (q, ([] : SubMap)))) p).isSome ↔ p ∈ c.props
    rw [alookup_map_nil]
    by_cases hp : p ∈ c.props <;> simp [hp]
  · intro p d hd
    rw [MIC.clearOp] at hd
    rw [alookup_map_nil] at hd
    by_cases hp : p ∈ c.props
    · rw [if_pos hp] at hd
      injection hd with h1
      subst h1
      exact List.nodup_nil
    · rw [if_neg hp] at hd
      cases hd
  · exact List.nodup_nil
  · intro oid s hs
    cases hs
  · intro oid s p hs
    cases hs
  · intro oid s p v hs
    cases hs
  · intro p d v oid hd hv
    rw [MIC.clearOp] at hd
    rw [alookup_map_nil] at hd
    by_cases hp : p ∈ c.props
    · rw [if_pos hp] at hd
      injection hd with h1
      subst h1
      cases hv
    · rw [if_neg hp] at hd
      cases hd

theorem micInv_init (props : List PropName) (au : Bool) (hnd : props.Nodup) :
    MicInv (MIC.init props au) := by
  refine ⟨hnd, ?_, ?_, ?_, ?_, ?_, ?_, ?_⟩
  · intro p
    show (alookup (props.map (fun q => (q, ([] : SubMap)))) p).isSome ↔ p ∈ props
    rw [alookup_map_nil]
    by_cases hp : p ∈ props <;> simp [hp]
  · intro p d hd
    rw [MIC.init] at hd
    simp only [] at hd
    rw [alookup_map_nil] at hd
    by_cases hp : p ∈ props
    · rw [if_pos hp] at hd
      injection hd with h1
      subst h1
      exact List.nodup_nil
    · rw [if_neg hp] at hd
      cases hd
  · exact List.nodup_nil
  · intro oid s hs
    cases hs
  · intro oid s p hs
    cases hs
  · intro oid s p v hs
    cases hs
  · intro p d v oid hd hv
    rw [MIC.init] at hd
    simp only [] at hd
    rw [alookup_map_nil] at hd
    by_cases hp : p ∈ props
    · rw [if_pos hp] at hd
      injection hd with h1
      subst h1
      cases hv
    · rw [if_neg hp] at hd
      cases hd

theorem micInv_add (c : MIC) (cid : Nat) (oid : ObjId) (o : ObjState) (hInv : MicInv c) :
    MicInv (c.addOp cid oid o).1 := by
  by_cases hreg : (alookup c.propdict oid).isSome
  · rw [addOp_eq_skip c cid oid o hreg]
    exact hInv
  · have hnone : alookup c.propdict oid = none := Option.not_isSome_iff_eq_none.mp hreg
    cases hdc : dupCheck c.dicts (propResults c.props o.attrs) with
    | some e =>
      rw [addOp_eq_dup c cid oid o e hnone hdc]
      exact hInv
    | none =>
      rw [addOp_eq_commit c cid oid o hnone hdc]
      set pr := propResults c.props o.attrs with hpr
      have hprnd : (akeys pr).Nodup := akeys_propResults_nodup _ hInv.propsNodup
      have hdom := hInv.pr_domain o.attrs
      have hchk := (dupCheck_eq_none_iff c.dicts pr hdom).mp hdc
      refine ⟨hInv.propsNodup, ?_, ?_, ?_, ?_, ?_, ?_, ?_⟩
      · intro p
        show (alookup (insertAll c.dicts pr oid) p).isSome ↔ p ∈ c.props
        rw [alookup_insertAll_isSome _ _ _ _ hprnd]
        exact hInv.dictsKeys p
      · intro p d' hd'
        replace hd' : alookup (insertAll c.dicts pr oid) p = some d' := hd'
        cases hl : alookup pr p with
        | none =>
          rw [alookup_insertAll_none _ _ _ _ hl] at hd'
          exact hInv.subNodup p d' hd'
        | some v =>
          cases hd : alookup c.dicts p with
          | none =>
            rw [alookup_insertAll_missing _ _ _ _ hd] at hd'
            cases hd'
          | some d =>
            rw [alookup_insertAll_some _ _ _ _ _ _ hprnd hl hd] at hd'
            injection hd' with h1
            subst h1
            exact akeys_ainsert_nodup _ _ _ (hInv.subNodup p d hd)
      · show (akeys (ainsert c.propdict oid pr)).Nodup
        exact akeys_ainsert_nodup _ _ _ hInv.pdNodup
      · intro oid' s hs
        replace hs : alookup (ainsert c.propdict oid pr) oid' = some s := hs
        by_cases ho : oid' = oid
        · subst ho
          rw [alookup_ainsert_self] at hs
          injection hs with h1
          subst h1
          exact hprnd
        · rw [alookup_ainsert_ne _ _ _ _ ho] at hs
          exact hInv.snapNodup _ _ hs
      · intro oid' s p hs hp
        replace hs : alookup (ainsert c.propdict oid pr) oid' = some s := hs
        show p ∈ c.props
        by_cases ho : oid' = oid
        · subst ho
          rw [alookup_ainsert_self] at hs
          injection hs with h1
          subst h1
          exact mem_akeys_propResults hp
        · rw [alookup_ainsert_ne _ _ _ _ ho] at hs
          exact hInv.snapProps _ _ _ hs hp
      · intro oid' s p v hs hv
        replace hs : alookup (ainsert c.propdict oid pr) oid' = some s := hs
        show ∃ d, alookup (insertAll c.dicts pr oid) p = some d ∧ alookup d v = some oid'
        by_cases ho : oid' = oid
        · subst ho
          rw [alookup_ainsert_self] at hs
          injection hs with h1
          subst h1
          have hm : (p, v) ∈ pr := alookup_mem hv
          have hp : p ∈ c.props := (mem_propResults.mp hm).1
          obtain ⟨d, hd⟩ := hInv.dict_of_prop hp
          refine ⟨ainsert d v oid', ?_, ?_⟩
          · exact alookup_insertAll_some _ _ _ _ _ _ hprnd hv hd
          · rw [alookup_ainsert_self]
        · rw [alookup_ainsert_ne _ _ _ _ ho] at hs
          obtain ⟨d, hd, hdv⟩ := hInv.forward oid' s p v hs hv
          cases hl : alookup pr p with
          | none =>
            refine ⟨d, ?_, hdv⟩
            rw [alookup_insertAll_none _ _ _ _ hl]
            exact hd
          | some v' =>
            have hm' : (p, v') ∈ pr := alookup_mem hl
            have hnv : alookup d v' = none := hchk (p, v') hm' d hd
            have hvne : v ≠ v' := by
              rintro rfl
              rw [hdv] at hnv
              cases hnv
            refine ⟨ainsert d v' oid, ?_, ?_⟩
            · exact alookup_insertAll_some _ _ _ _ _ _ hprnd hl hd
            · rw [alookup_ainsert_ne _ _ _ _ hvne]
              exact hdv
      · intro p d' v w hd' hv
        replace hd' : alookup (insertAll c.dicts pr oid) p = some d' := hd'
        show ∃ s, alookup (ainsert c.propdict oid pr) w = some s ∧ alookup s p = some v
        cases hl : alookup pr p with
        | none =>
          rw [alookup_insertAll_none _ _ _ _ hl] at hd'
          obtain ⟨s, hs, hsv⟩ := hInv.backward p d' v w hd' hv
          have hw : w ≠ oid := by
            rintro rfl
            rw [hs] at hnone
            cases hnone
          refine ⟨s, ?_, hsv⟩
          rw [alookup_ainsert_ne _ _ _ _ hw]
          exact hs
        | some v0 =>
          cases hd : alookup c.dicts p with
          | none =>
            rw [alookup_insertAll_missing _ _ _ _ hd] at hd'
            cases hd'
          | some d =>
            rw [alookup_insertAll_some _ _ _ _ _ _ hprnd hl hd] at hd'
            injection hd' with h1
            subst h1
            by_cases hvv : v = v0
            · subst hvv
              rw [alookup_ainsert_self] at hv
              injection hv with h2
              subst h2
              refine ⟨pr, ?_, hl⟩
              rw [alookup_ainsert_self]
            · rw [alookup_ainsert_ne _ _ _ _ hvv] at hv
              obtain ⟨s, hs, hsv⟩ := hInv.backward p d v w hd hv
              have hw : w ≠ oid := by
                rintro rfl
                rw [hs] at hnone
                cases hnone
              refine ⟨s, ?_, hsv⟩
              rw [alookup_ainsert_ne _ _ _ _ hw]
              exact hs

theorem micInv_remove (c : MIC) (cid : Nat) (oid : ObjId) (o : ObjState) (hInv : MicInv c) :
    MicInv (c.removeOp cid oid o).1 := by
  cases hreg : alookup c.propdict oid with
  | none =>
    rw [removeOp_eq_noObj c cid oid o hreg]
    exact hInv
  | some prev =>
    have prevnd : (akeys prev).Nodup := hInv.snapNodup _ _ hreg
    have hcommit :
        MicInv ({ c with dicts := deleteAll c.dicts prev,
                         propdict := aerase c.propdict oid } : MIC) := by
      refine ⟨hInv.propsNodup, ?_, ?_, ?_, ?_, ?_, ?_, ?_⟩
      · intro p
        show (alookup (deleteAll c.dicts prev) p).isSome ↔ p ∈ c.props
        rw [alookup_deleteAll_isSome _ _ _ prevnd]
        exact hInv.dictsKeys p
      · intro p d' hd'
        replace hd' : alookup (deleteAll c.dicts prev) p = some d' := hd'
        cases hl : alookup prev p with
        | none =>
          rw [alookup_deleteAll_none _ _ _ hl] at hd'
          exact hInv.subNodup p d' hd'
        | some v =>
          cases hd : alookup c.dicts p with
          | none =>
            rw [alookup_deleteAll_missing _ _ _ hd] at hd'
            cases hd'
          | some d =>
            rw [alookup_deleteAll_some _ _ _ _ _ prevnd hl hd] at hd'
            injection hd' with h1
            subst h1
            exact akeys_aerase_nodup _ _ (hInv.subNodup p d hd)
      · show (akeys (aerase c.propdict oid)).Nodup
        exact (akeys_aerase_sublist _ _).nodup hInv.pdNodup
      · intro oid' s hs
        replace hs : alookup (aerase c.propdict oid) oid' = some s := hs
        by_cases ho : oid' = oid
        · subst ho
          rw [alookup_aerase_self _ _ hInv.pdNodup] at hs
          cases hs
        · rw [alookup_aerase_ne _ _ _ ho] at hs
          exact hInv.snapNodup _ _ hs
      · intro oid' s p hs hp
        replace hs : alookup (aerase c.propdict oid) oid' = some s := hs
        show p ∈ c.props
        by_cases ho : oid' = oid
        · subst ho
          rw [alookup_aerase_self _ _ hInv.pdNodup] at hs
          cases hs
        · rw [alookup_aerase_ne _ _ _ ho] at hs
          exact hInv.snapProps _ _ _ hs hp
      · intro oid' s p v hs hv
        replace hs : alookup (aerase c.propdict oid) oid' = some s := hs
        show ∃ d, alookup (deleteAll c.dicts prev) p = some d ∧ alookup d v = some oid'
        by_cases ho : oid' = oid
        · subst ho
          rw [alookup_aerase_self _ _ hInv.pdNodup] at hs
          cases hs
        · rw [alookup_aerase_ne _ _ _ ho] at hs
          obtain ⟨d, hd, hdv⟩ := hInv.forward oid' s p v hs hv
          cases hl : alookup prev p with
          | none =>
            refine ⟨d, ?_, hdv⟩
            rw [alookup_deleteAll_none _ _ _ hl]
            exact hd
          | some w =>
            obtain ⟨d2, hd2, hd2w⟩ := hInv.forward oid prev p w hreg hl
            rw [hd] at hd2
            injection hd2 with h1
            subst h1
            have hvw : v ≠ w := by
              rintro rfl
              rw [hdv] at hd2w
              injection hd2w with h2
              exact ho h2
            refine ⟨aerase d w, ?_, ?_⟩
            · exact alookup_deleteAll_some _ _ _ _ _ prevnd hl hd
            · rw [alookup_aerase_ne _ _ _ hvw]
              exact hdv
      · intro p d' v w hd' hv
        replace hd' : alookup (deleteAll c.dicts prev) p = some d' := hd'
        show ∃ s, alookup (aerase c.propdict oid) w = some s ∧ alookup s p = some v
        cases hd : alookup c.dicts p with
        | none =>
          rw [alookup_deleteAll_missing _ _ _ hd] at hd'
          cases hd'
        | some d =>
          cases hl : alookup prev p with
          | none =>
            rw [alookup_deleteAll_none _ _ _ hl] at hd'
            rw [hd] at hd'
            injection hd' with h1
            subst h1
            obtain ⟨s, hs, hsv⟩ := hInv.backward p d v w hd hv
            have hw : w ≠ oid := by
              rintro rfl
              rw [hreg] at hs
              injection hs with h2
              subst h2
              rw [hsv] at hl
              cases hl
            refine ⟨s, ?_, hsv⟩
            rw [alookup_aerase_ne _ _ _ hw]
            exact hs
          | some w0 =>
            rw [alookup_deleteAll_some _ _ _ _ _ prevnd hl hd] at hd'
            injection hd' with h1
            subst h1
            have hvw0 : v ≠ w0 := by
              rintro rfl
              rw [alookup_aerase_self _ _ (hInv.subNodup p d hd)] at hv
              cases hv
            rw [alookup_aerase_ne _ _ _ hvw0] at hv
            obtain ⟨s, hs, hsv⟩ := hInv.backward p d v w hd hv
            have hw : w ≠ oid := by
              rintro rfl
              rw [hreg] at hs
              injection hs with h2
              subst h2
              rw [hsv] at hl
              injection hl with h3
              exact hvw0 h3
            refine ⟨s, ?_, hsv⟩
            rw [alookup_aerase_ne _ _ _ hw]
            exact hs
    cases hauto : o.isAuto with
    | false =>
      rw [removeOp_eq_commit_plain c cid oid o prev hreg hauto]
      exact hcommit
    | true =>
      cases hrf : removeFirst o.bound cid with
      | none =>
        rw [removeOp_eq_valueError c cid oid o prev hreg hauto hrf]
        exact hInv
      | some b1 =>
        rw [removeOp_eq_commit_auto c cid oid o prev b1 hreg hauto hrf]
        exact hcommit

theorem micInv_discard (c : MIC) (cid : Nat) (oid : ObjId) (o : ObjState) (hInv : MicInv c) :
    MicInv (c.discardOp cid oid o).1 := by
  rw [discardOp_fst]
  exact micInv_remove c cid oid o hInv

theorem micInv_update (c : MIC) (oid : ObjId) (o : ObjState) (hInv : MicInv c) :
    MicInv (c.updateItemOp oid o).1 := by
  cases hreg : alookup c.propdict oid with
  | none =>
    rw [updateOp_eq_noObj c oid o hreg]
    exact hInv
  | some prev =>
    cases hdc : dupCheck c.dicts
        ((propResults c.props o.attrs).filter (fun pv => decide (pv ∉ prev))) with
    | some e =>
      rw [updateOp_eq_dup c oid o prev e hreg hdc]
      exact hInv
    | none =>
      rw [updateOp_eq_commit c oid o prev hreg hdc]
      set pr := propResults c.props o.attrs with hpreq
      set oldP := prev.filter (fun pv => decide (pv ∉ pr)) with holdPeq
      set newP := pr.filter (fun pv => decide (pv ∉ prev)) with hnewPeq
      have hprnd : (akeys pr).Nodup := akeys_propResults_nodup _ hInv.propsNodup
      have hprevnd : (akeys prev).Nodup := hInv.snapNodup _ _ hreg
      have holdnd : (akeys oldP).Nodup := (akeys_filter_sublist prev _).nodup hprevnd
      have hnewnd : (akeys newP).Nodup := (akeys_filter_sublist pr _).nodup hprnd
      have hnewsub : ∀ pv ∈ newP, pv ∈ pr ∧ pv ∉ prev := fun pv h => mem_filter_not_mem.mp h
      have holdsub : ∀ pv ∈ oldP, pv ∈ prev ∧ pv ∉ pr := fun pv h => mem_filter_not_mem.mp h
      have hnewdom : ∀ pv ∈ newP, ∃ d, alookup c.dicts pv.1 = some d := by
        intro pv h
        exact hInv.pr_domain o.attrs pv (hnewsub pv h).1
      have hchk := (dupCheck_eq_none_iff c.dicts newP hnewdom).mp hdc
      refine ⟨hInv.propsNodup, ?_, ?_, ?_, ?_, ?_, ?_, ?_⟩
      · intro p
        show (alookup (insertAll (deleteAll c.dicts oldP) newP oid) p).isSome ↔ p ∈ c.props
        rw [alookup_insertAll_isSome _ _ _ _ hnewnd, alookup_deleteAll_isSome _ _ _ holdnd]
        exact hInv.dictsKeys p
      · intro p d'' hd''
        replace hd'' : alookup (insertAll (deleteAll c.dicts oldP) newP oid) p = some d'' := hd''
        cases hd : alookup c.dicts p with
        | none =>
          rw [alookup_insertAll_missing _ _ _ _
            (alookup_deleteAll_missing _ _ _ hd)] at hd''
          cases hd''
        | some d =>
          have hdnd := hInv.subNodup p d hd
          obtain ⟨e1, hD1, he1nd⟩ :
              ∃ e1, alookup (deleteAll c.dicts oldP) p = some e1 ∧ (akeys e1).Nodup := by
            cases hop : alookup oldP p with
            | none =>
              exact ⟨d, by rw [alookup_deleteAll_none _ _ _ hop]; exact hd, hdnd⟩
            | some w0 =>
              exact ⟨aerase d w0, alookup_deleteAll_some _ _ _ _ _ holdnd hop hd,
                akeys_aerase_nodup _ _ hdnd⟩
          cases hnp : alookup newP p with
          | none =>
            rw [alookup_insertAll_none _ _ _ _ hnp, hD1] at hd''
            injection hd'' with h1
            subst h1
            exact he1nd
          | some u =>
            rw [alookup_insertAll_some _ _ _ _ _ _ hnewnd hnp hD1] at hd''
            injection hd'' with h1
            subst h1
            exact akeys_ainsert_nodup _ _ _ he1nd
      · show (akeys (ainsert c.propdict oid pr)).Nodup
        exact akeys_ainsert_nodup _ _ _ hInv.pdNodup
      · intro oid' s hs
        replace hs : alookup (ainsert c.propdict oid pr) oid' = some s := hs
        by_cases ho : oid' = oid
        · rw [ho, alookup_ainsert_self] at hs
          injection hs with h1
          subst h1
          exact hprnd
        · rw [alookup_ainsert_ne _ _ _ _ ho] at hs
          exact hInv.snapNodup _ _ hs
      · intro oid' s p hs hp
        replace hs : alookup (ainsert c.propdict oid pr) oid' = some s := hs
        show p ∈ c.props
        by_cases ho : oid' = oid
        · rw [ho, alookup_ainsert_self] at hs
          injection hs with h1
          subst h1
          exact mem_akeys_propResults hp
        · rw [alookup_ainsert_ne _ _ _ _ ho] at hs
          exact hInv.snapProps _ _ _ hs hp
      · intro oid' s p v hs hv
        replace hs : alookup (ainsert c.propdict oid pr) oid' = some s := hs
        show ∃ d, alookup (insertAll (deleteAll c.dicts oldP) newP oid) p = some d ∧
          alookup d v = some oid'
        by_cases ho : oid' = oid
        · rw [ho] at hs ⊢
          rw [alookup_ainsert_self] at hs
          injection hs with h1
          subst h1
          have hm : (p, v) ∈ pr := alookup_mem hv
          have hp : p ∈ c.props := (mem_propResults.mp hm).1
          obtain ⟨d, hd⟩ := hInv.dict_of_prop hp
          by_cases hvprev : (p, v) ∈ prev
          · have hprevlook : alookup prev p = some v := mem_alookup hprevnd hvprev
            have hop : alookup oldP p = none :=
              alookup_filter_nm_none1 hprevnd hprevlook hm
            have hnp : alookup newP p = none :=
              alookup_filter_nm_none1 hprnd hv hvprev
            obtain ⟨d2, hd2, hd2v⟩ := hInv.forward oid prev p v hreg hprevlook
            rw [hd] at hd2
            injection hd2 with h2
            subst h2
            refine ⟨d, ?_, hd2v⟩
            rw [alookup_insertAll_none _ _ _ _ hnp, alookup_deleteAll_none _ _ _ hop]
            exact hd
          · have hnp : alookup newP p = some v :=
              alookup_filter_nm_some hprnd hv hvprev
            cases hprev : alookup prev p with
            | none =>
              have hop : alookup oldP p = none := alookup_filter_nm_none2 hprev
              refine ⟨ainsert d v oid, ?_, ?_⟩
              · refine alookup_insertAll_some _ _ _ _ _ _ hnewnd hnp ?_
                rw [alookup_deleteAll_none _ _ _ hop]
                exact hd
              · rw [alookup_ainsert_self]
            | some w =>
              have hwpr : (p, w) ∉ pr := by
                intro hmem
                have := mem_alookup hprnd hmem
                rw [hv] at this
                injection this with h3
                subst h3
                exact hvprev (alookup_mem hprev)
              have hop : alookup oldP p = some w :=
                alookup_filter_nm_some hprevnd hprev hwpr
              refine ⟨ainsert (aerase d w) v oid, ?_, ?_⟩
              · refine alookup_insertAll_some _ _ _ _ _ _ hnewnd hnp ?_
                exact alookup_deleteAll_some _ _ _ _ _ holdnd hop hd
              · rw [alookup_ainsert_self]
        · rw [alookup_ainsert_ne _ _ _ _ ho] at hs
          obtain ⟨d, hd, hdv⟩ := hInv.forward oid' s p v hs hv
          obtain ⟨e1, hD1, he1v⟩ :
              ∃ e1, alookup (deleteAll c.dicts oldP) p = some e1 ∧
                alookup e1 v = some oid' := by
            cases hop : alookup oldP p with
            | none =>
              exact ⟨d, by rw [alookup_deleteAll_none _ _ _ hop]; exact hd, hdv⟩
            | some w0 =>
              have hw0prev : alookup prev p = some w0 :=
                mem_alookup hprevnd (holdsub _ (alookup_mem hop)).1
              obtain ⟨d2, hd2, hd2w0⟩ := hInv.forward oid prev p w0 hreg hw0prev
              rw [hd] at hd2
              injection hd2 with h2
              subst h2
              have hvw0 : v ≠ w0 := by
                rintro rfl
                rw [hdv] at hd2w0
                injection hd2w0 with h3
                exact ho h3
              refine ⟨aerase d w0, alookup_deleteAll_some _ _ _ _ _ holdnd hop hd, ?_⟩
              rw [alookup_aerase_ne _ _ _ hvw0]
              exact hdv
          cases hnp : alookup newP p with
          | none =>
            refine ⟨e1, ?_, he1v⟩
            rw [alookup_insertAll_none _ _ _ _ hnp]
            exact hD1
          | some u =>
            have hdu : alookup d u = none := hchk (p, u) (alookup_mem hnp) d hd
            have hvu : v ≠ u := by
              rintro rfl
              rw [hdv] at hdu
              cases hdu
            refine ⟨ainsert e1 u oid, ?_, ?_⟩
            · exact alookup_insertAll_some _ _ _ _ _ _ hnewnd hnp hD1
            · rw [alookup_ainsert_ne _ _ _ _ hvu]
              exact he1v
      · intro p d'' v w hd'' hv
        replace hd'' : alookup (insertAll (deleteAll c.dicts oldP) newP oid) p = some d'' := hd''
        show ∃ s, alookup (ainsert c.propdict oid pr) w = some s ∧ alookup s p = some v
        cases hd : alookup c.dicts p with
        | none =>
          rw [alookup_insertAll_missing _ _ _ _
            (alookup_deleteAll_missing _ _ _ hd)] at hd''
          cases hd''
        | some d =>
          have hdnd := hInv.subNodup p d hd
          have hfinal : alookup d v = some w → alookup oldP p ≠ some v →
              ∃ s, alookup (ainsert c.propdict oid pr) w = some s ∧ alookup s p = some v := by
            intro hdv hne
            obtain ⟨s, hs, hsv⟩ := hInv.backward p d v w hd hdv
            by_cases hw : w = oid
            · subst hw
              rw [hreg] at hs
              injection hs with h2
              subst h2
              have hvpr : (p, v) ∈ pr := by
                by_contra hnot
                exact hne (alookup_filter_nm_some hprevnd hsv hnot)
              refine ⟨pr, ?_, mem_alookup hprnd hvpr⟩
              rw [alookup_ainsert_self]
            · refine ⟨s, ?_, hsv⟩
              rw [alookup_ainsert_ne _ _ _ _ hw]
              exact hs
          obtain ⟨e1, hD1, he1fact⟩ :
              ∃ e1, alookup (deleteAll c.dicts oldP) p = some e1 ∧
                ∀ v1 w1, alookup e1 v1 = some w1 →
                  alookup d v1 = some w1 ∧ alookup oldP p ≠ some v1 := by
            cases hop : alookup oldP p with
            | none =>
              refine ⟨d, by rw [alookup_deleteAll_none _ _ _ hop]; exact hd, ?_⟩
              intro v1 w1 h1
              exact ⟨h1, by intro hc; cases hc⟩
            | some w0 =>
              refine ⟨aerase d w0, alookup_deleteAll_some _ _ _ _ _ holdnd hop hd, ?_⟩
              intro v1 w1 h1
              have hv1w0 : v1 ≠ w0 := by
                rintro rfl
                rw [alookup_aerase_self _ _ hdnd] at h1
                cases h1
              rw [alookup_aerase_ne _ _ _ hv1w0] at h1
              refine ⟨h1, ?_⟩
              intro hc
              injection hc with h3
              exact hv1w0 (Eq.symm h3)
          cases hnp : alookup newP p with
          | none =>
            rw [alookup_insertAll_none _ _ _ _ hnp, hD1] at hd''
            injection hd'' with h1
            subst h1
            obtain ⟨hdv, hne⟩ := he1fact v w hv
            exact hfinal hdv hne
          | some u =>
            rw [alookup_insertAll_some _ _ _ _ _ _ hnewnd hnp hD1] at hd''
            injection hd'' with h1
            subst h1
            by_cases hvu : v = u
            · subst hvu
              rw [alookup_ainsert_self] at hv
              injection hv with h2
              subst h2
              have hvpr : (p, v) ∈ pr := (hnewsub _ (alookup_mem hnp)).1
              refine ⟨pr, ?_, mem_alookup hprnd hvpr⟩
              rw [alookup_ainsert_self]
            · rw [alookup_ainsert_ne _ _ _ _ hvu] at hv
              obtain ⟨hdv, hne⟩ := he1fact v w hv
              exact hfinal hdv hne

theorem findOp_eq_ok {c : MIC} {p : PropName} {v : PyVal} {oid : ObjId} {d : SubMap}
    (hd : alookup c.dicts p = some d) (hv : alookup d v = some oid) :
    c.findOp p v = Except.ok oid := by
  rw [MIC.findOp]
  simp only [hd, hv]

theorem findOp_eq_notFound {c : MIC} {p : PropName} {v : PyVal} {d : SubMap}
    (hd : alookup c.dicts p = some d) (hv : alookup d v = none) :
    c.findOp p v = Except.error (Err.keyErrNotFound p v) := by
  rw [MIC.findOp]
  simp only [hd, hv]

/-! ### The claims -/

/-- Claim C1: for every object `o` not yet registered in the collection and
every configured property `p` that `o` exposes, if `add(o)` succeeds then
`find(p, v)` — where `v` is the value `o` held for `p` at add time — returns
`o`. -/
theorem claim_C1 (c : MIC) (cid : Nat) (oid : ObjId) (o : ObjState)
    (hInv : MicInv c) (hreg : alookup c.propdict oid = none)
    (hok : (c.addOp cid oid o).2.2 = none) :
    ∀ p v, p ∈ c.props → alookup o.attrs p = some v →
      ((c.addOp cid oid o).1).findOp p v = Except.ok oid := by
  cases hdc : dupCheck c.dicts (propResults c.props o.attrs) with
  | some e =>
    rw [addOp_eq_dup c cid oid o e hreg hdc] at hok
    simp at hok
  | none =>
    intro p v hp hv
    rw [addOp_eq_commit c cid oid o hreg hdc]
    have hprl : alookup (propResults c.props o.attrs) p = some v := by
      rw [alookup_propResults, if_pos hp]
      exact hv
    obtain ⟨d, hd⟩ := hInv.dict_of_prop hp
    have hres := alookup_insertAll_some oid (propResults c.props o.attrs) c.dicts p v d
      (akeys_propResults_nodup _ hInv.propsNodup) hprl hd
    exact findOp_eq_ok hres (alookup_ainsert_self _ _ _)

/-- Witness for C1 at a concrete input: adding a fresh object with
`name = Pete` to the example collection makes it findable under that value. -/
theorem claim_C1_witness :
    ((cEx.addOp 0 2 oFresh).1).findOp "name" (PyVal.vstr "Pete") = Except.ok 2 := by
  have h := claim_C1 cEx 0 2 oFresh (micInv_of_micInvC cEx (by decide)) (by decide) (by decide)
  exact h "name" (PyVal.vstr "Pete") (by decide) (by decide)

/-- Claim C10: `update_item` on an object that is not registered raises
`KeyError(obj)` — keyed by the object itself, not by a property/value pair —
and returns the collection unchanged: the failure happens before any entry is
deleted or inserted. -/
theorem claim_C10 (c : MIC) (oid : ObjId) (o : ObjState)
    (hreg : alookup c.propdict oid = none) :
    c.updateItemOp oid o = (c, some (Err.keyErrObj oid)) :=
  updateOp_eq_noObj c oid o hreg

/-- Witness for C10 at a concrete input: updating the unregistered object `7`
on the example collection raises `KeyError(7)` and leaves the state intact. -/
theorem claim_C10_witness : cEx.updateItemOp 7 oFresh = (cEx, some (Err.keyErrObj 7)) :=
  claim_C10 cEx 7 oFresh (by decide)

/-- Claim C3: every mutating operation — `add`, `remove`, `discard`,
`update_item`, `clear` — preserves the representation invariant (the spec's
invariant I2, `forward`/`backward`, together with the well-formedness a
Python dict provides), whether the operation succeeds or raises. -/
theorem claim_C3 (c : MIC) (cid : Nat) (oid : ObjId) (o : ObjState) (hInv : MicInv c) :
    MicInv (c.addOp cid oid o).1 ∧ MicInv (c.removeOp cid oid o).1 ∧
    MicInv (c.discardOp cid oid o).1 ∧ MicInv (c.updateItemOp oid o).1 ∧
    MicInv c.clearOp :=
  ⟨micInv_add c cid oid o hInv, micInv_remove c cid oid o hInv,
   micInv_discard c cid oid o hInv, micInv_update c oid o hInv, micInv_clear c hInv⟩

/-- Witness for C3 at a concrete input: all five operations applied to the
example collection preserve the invariant. -/
theorem claim_C3_witness :
    MicInv (cEx.addOp 0 1 oEx).1 ∧ MicInv (cEx.removeOp 0 1 oEx).1 ∧
    MicInv (cEx.discardOp 0 1 oEx).1 ∧ MicInv (cEx.updateItemOp 1 oEx).1 ∧
    MicInv cEx.clearOp :=
  claim_C3 cEx 0 1 oEx (micInv_of_micInvC cEx (by decide))

/-- Claim C2: `add` (on an unregistered object) and `update_item` (on a
registered one) raise the duplicate-key error exactly when one of the new
(property, value) pairs is already occupied by a different object; whenever
they raise, the raised error is the duplicate-key `KeyError`, and the
collection state — hence `size()`, `find`, and membership — is exactly the
pre-call state: no sub-map and no registry entry is touched. -/
theorem claim_C2 (c : MIC) (cid : Nat) (oid : ObjId) (o : ObjState) (hInv : MicInv c) :
    (alookup c.propdict oid = none →
      (((c.addOp cid oid o).2.2 ≠ none ↔
          ∃ p v w, (p, v) ∈ propResults c.props o.attrs ∧
            (alookup c.dicts p).bind (fun d => alookup d v) = some w ∧ w ≠ oid) ∧
        (∀ e, (c.addOp cid oid o).2.2 = some e → ∃ p v, e = Err.keyErrDup p v) ∧
        ((c.addOp cid oid o).2.2 ≠ none → (c.addOp cid oid o).1 = c))) ∧
    (∀ prev, alookup c.propdict oid = some prev →
      (((c.updateItemOp oid o).2 ≠ none ↔
          ∃ p v w,
            (p, v) ∈ (propResults c.props o.attrs).filter (fun pv => decide (pv ∉ prev)) ∧
            (alookup c.dicts p).bind (fun d => alookup d v) = some w ∧ w ≠ oid) ∧
        (∀ e, (c.updateItemOp oid o).2 = some e → ∃ p v, e = Err.keyErrDup p v) ∧
        ((c.updateItemOp oid o).2 ≠ none → (c.updateItemOp oid o).1 = c))) := by
  constructor
  · intro hreg
    have hdom := hInv.pr_domain o.attrs
    cases hdc : dupCheck c.dicts (propResults c.props o.attrs) with
    | none =>
      rw [addOp_eq_commit c cid oid o hreg hdc]
      have hchk := (dupCheck_eq_none_iff _ _ hdom).mp hdc
      refine ⟨?_, ?_, ?_⟩
      · constructor
        · intro hcontra
          exact absurd rfl hcontra
        · rintro ⟨p, v, w, hm, hb, hw⟩
          obtain ⟨d, hd⟩ := hdom (p, v) hm
          rw [hd] at hb
          simp only [Option.some_bind] at hb
          have h2 : alookup d v = none := hchk (p, v) hm d hd
          rw [h2] at hb
          cases hb
      · intro e he
        cases he
      · intro hcontra
        exact absurd rfl hcontra
    | some e =>
      rw [addOp_eq_dup c cid oid o e hreg hdc]
      obtain ⟨p, v, d, he, hm, hd, hocc⟩ := dupCheck_eq_some hdom hdc
      refine ⟨?_, ?_, ?_⟩
      · constructor
        · intro _
          obtain ⟨w, hw⟩ := Option.isSome_iff_exists.mp hocc
          obtain ⟨s, hs, hsv⟩ := hInv.backward p d v w hd hw
          have hwo : w ≠ oid := by
            rintro rfl
            rw [hreg] at hs
            cases hs
          refine ⟨p, v, w, hm, ?_, hwo⟩
          rw [hd]
          exact hw
        · intro _ hcontra
          cases hcontra
      · intro e1 he1
        injection he1 with h1
        subst h1
        exact ⟨p, v, he⟩
      · intro _
        rfl
  · intro prev hreg
    have hnewdom : ∀ pv ∈ (propResults c.props o.attrs).filter
        (fun pv => decide (pv ∉ prev)), ∃ d, alookup c.dicts pv.1 = some d := by
      intro pv h
      exact hInv.pr_domain o.attrs pv (mem_filter_not_mem.mp h).1
    cases hdc : dupCheck c.dicts
        ((propResults c.props o.attrs).filter (fun pv => decide (pv ∉ prev))) with
    | none =>
      rw [updateOp_eq_commit c oid o prev hreg hdc]
      have hchk := (dupCheck_eq_none_iff _ _ hnewdom).mp hdc
      refine ⟨?_, ?_, ?_⟩
      · constructor
        · intro hcontra
          exact absurd rfl hcontra
        · rintro ⟨p, v, w, hm, hb, hw⟩
          obtain ⟨d, hd⟩ := hnewdom (p, v) hm
          rw [hd] at hb
          simp only [Option.some_bind] at hb
          have h2 : alookup d v = none := hchk (p, v) hm d hd
          rw [h2] at hb
          cases hb
      · intro e he
        cases he
      · intro hcontra
        exact absurd rfl hcontra
    | some e =>
      rw [updateOp_eq_dup c oid o prev e hreg hdc]
      obtain ⟨p, v, d, he, hm, hd, hocc⟩ := dupCheck_eq_some hnewdom hdc
      have hprevnd : (akeys prev).Nodup := hInv.snapNodup _ _ hreg
      refine ⟨?_, ?_, ?_⟩
      · constructor
        · intro _
          obtain ⟨w, hw⟩ := Option.isSome_iff_exists.mp hocc
          obtain ⟨s, hs, hsv⟩ := hInv.backward p d v w hd hw
          have hwo : w ≠ oid := by
            rintro rfl
            rw [hreg] at hs
            injection hs with h1
            subst h1
            exact (mem_filter_not_mem.mp hm).2 (alookup_mem hsv)
          refine ⟨p, v, w, hm, ?_, hwo⟩
          rw [hd]
          exact hw
        · intro _ hcontra
          cases hcontra
      · intro e1 he1
        injection he1 with h1
        subst h1
        exact ⟨p, v, he⟩
      · intro _
        rfl

/-- Witness for C2 at a concrete input: adding a second object whose `name`
collides raises the duplicate error and leaves the collection unchanged. -/
theorem claim_C2_witness :
    (cEx.addOp 0 2 oColl).2.2 ≠ none ∧ (cEx.addOp 0 2 oColl).1 = cEx := by
  have h := (claim_C2 cEx 0 2 oColl (micInv_of_micInvC cEx (by decide))).1 (by decide)
  have hne : (cEx.addOp 0 2 oColl).2.2 ≠ none :=
    h.1.mpr ⟨"name", PyVal.vstr "John", 1, by decide, by decide, by decide⟩
  exact ⟨hne, h.2.2 hne⟩

/-- Claim C4: for an auto-update-capable object bound to a collection that
indexes `name`, currently in sync and indexed under `vJohn`, assigning
`name := vJohnny` (with `vJohnny` unoccupied) synchronously invokes
`update_item` on the bound collection before the write returns — no explicit
call by the caller — after which `find("name", vJohnny)` returns the object
and `find("name", vJohn)` raises the not-found `KeyError`. -/
theorem claim_C4 (c : MIC) (cid : Nat) (oid : ObjId) (o : ObjState)
    (vJohn vJohnny : PyVal) (hInv : MicInv c)
    (hauto : o.isAuto = true) (hbound : o.bound = [cid])
    (hreg : alookup c.propdict oid = some (propResults c.props o.attrs))
    (hname : alookup (propResults c.props o.attrs) "name" = some vJohn)
    (hne : vJohn ≠ vJohnny)
    (hfree : ∀ d, alookup c.dicts "name" = some d → alookup d vJohnny = none) :
    setattrOp [(cid, c)] oid o "name" vJohnny =
      ([(cid, (c.updateItemOp oid { o with attrs := ainsert o.attrs "name" vJohnny }).1)],
       { o with attrs := ainsert o.attrs "name" vJohnny }, none) ∧
    (c.updateItemOp oid { o with attrs := ainsert o.attrs "name" vJohnny }).2 = none ∧
    ((c.updateItemOp oid { o with attrs := ainsert o.attrs "name" vJohnny }).1).findOp
      "name" vJohnny = Except.ok oid ∧
    ((c.updateItemOp oid { o with attrs := ainsert o.attrs "name" vJohnny }).1).findOp
      "name" vJohn = Except.error (Err.keyErrNotFound "name" vJohn) := by
  set o1 : ObjState := { o with attrs := ainsert o.attrs "name" vJohnny } with ho1
  set pr0 := propResults c.props o.attrs with hpr0eq
  set pr1 := propResults c.props o1.attrs with hpr1eq
  have hpr0nd : (akeys pr0).Nodup := akeys_propResults_nodup _ hInv.propsNodup
  have hpr1nd : (akeys pr1).Nodup := akeys_propResults_nodup _ hInv.propsNodup
  have hnamemem : "name" ∈ c.props :=
    mem_akeys_propResults ((mem_akeys_iff _ _).mpr ⟨vJohn, alookup_mem hname⟩)
  have ho1attrs : o1.attrs = ainsert o.attrs "name" vJohnny := rfl
  have hpr1name : alookup pr1 "name" = some vJohnny := by
    rw [hpr1eq, alookup_propResults, if_pos hnamemem, ho1attrs]
    exact alookup_ainsert_self _ _ _
  have hpr1other : ∀ p, p ≠ "name" → alookup pr1 p = alookup pr0 p := by
    intro p hp
    rw [hpr1eq, hpr0eq, alookup_propResults, alookup_propResults]
    by_cases hmem : p ∈ c.props
    · rw [if_pos hmem, if_pos hmem, ho1attrs, alookup_ainsert_ne _ _ _ _ hp]
    · rw [if_neg hmem, if_neg hmem]
  have hnewchar : ∀ pv ∈ pr1.filter (fun pv => decide (pv ∉ pr0)),
      pv = ("name", vJohnny) := by
    rintro ⟨p, v⟩ hm
    obtain ⟨hin1, hnin0⟩ := mem_filter_not_mem.mp hm
    have hl1 : alookup pr1 p = some v := mem_alookup hpr1nd hin1
    by_cases hp : p = "name"
    · subst hp
      rw [hpr1name] at hl1
      injection hl1 with h1
      rw [h1]
    · exfalso
      rw [hpr1other p hp] at hl1
      exact hnin0 (alookup_mem hl1)
  have hdomnew : ∀ pv ∈ pr1.filter (fun pv => decide (pv ∉ pr0)),
      ∃ d, alookup c.dicts pv.1 = some d := by
    intro pv hm
    have hpv := hnewchar pv hm
    subst hpv
    exact hInv.dict_of_prop hnamemem
  have hdc : dupCheck c.dicts (pr1.filter (fun pv => decide (pv ∉ pr0))) = none := by
    rw [dupCheck_eq_none_iff _ _ hdomnew]
    intro pv hm d hd
    have hpv := hnewchar pv hm
    subst hpv
    exact hfree d hd
  have hcommit := updateOp_eq_commit c oid o1 pr0 hreg hdc
  have holdlook : alookup (pr0.filter (fun pv => decide (pv ∉ pr1))) "name" = some vJohn := by
    apply alookup_filter_nm_some hpr0nd hname
    intro hmem
    have h2 := mem_alookup hpr1nd hmem
    rw [hpr1name] at h2
    injection h2 with h1
    exact hne (Eq.symm h1)
  have hnewlook : alookup (pr1.filter (fun pv => decide (pv ∉ pr0))) "name"
      = some vJohnny := by
    apply alookup_filter_nm_some hpr1nd hpr1name
    intro hmem
    have h2 := mem_alookup hpr0nd hmem
    rw [hname] at h2
    injection h2 with h1
    exact hne h1
  obtain ⟨d, hd⟩ := hInv.dict_of_prop hnamemem
  have hdnd := hInv.subNodup _ _ hd
  have holdnd : (akeys (pr0.filter (fun pv => decide (pv ∉ pr1)))).Nodup :=
    (akeys_filter_sublist pr0 _).nodup hpr0nd
  have hnewnd : (akeys (pr1.filter (fun pv => decide (pv ∉ pr0)))).Nodup :=
    (akeys_filter_sublist pr1 _).nodup hpr1nd
  have hD1 : alookup (deleteAll c.dicts (pr0.filter (fun pv => decide (pv ∉ pr1)))) "name"
      = some (aerase d vJohn) :=
    alookup_deleteAll_some _ _ _ _ _ holdnd holdlook hd
  have hD2 : alookup (insertAll
      (deleteAll c.dicts (pr0.filter (fun pv => decide (pv ∉ pr1))))
      (pr1.filter (fun pv => decide (pv ∉ pr0))) oid) "name"
      = some (ainsert (aerase d vJohn) vJohnny oid) :=
    alookup_insertAll_some _ _ _ _ _ _ hnewnd hnewlook hD1
  have herr : (c.updateItemOp oid o1).2 = none := by
    rw [hcommit]
  have hfind1 : ((c.updateItemOp oid o1).1).findOp "name" vJohnny = Except.ok oid := by
    rw [hcommit]
    exact findOp_eq_ok hD2 (alookup_ainsert_self _ _ _)
  have hfind2 : ((c.updateItemOp oid o1).1).findOp "name" vJohn
      = Except.error (Err.keyErrNotFound "name" vJohn) := by
    rw [hcommit]
    refine findOp_eq_notFound hD2 ?_
    rw [alookup_ainsert_ne _ _ _ _ hne]
    exact alookup_aerase_self _ _ hdnd
  have hlook : alookup [(cid, c)] cid = some c := by simp [alookup]
  have hnotify : notifyAll oid o1 [cid] [(cid, c)]
      = ([(cid, (c.updateItemOp oid o1).1)], none) := by
    simp only [notifyAll, hlook, hcommit]
    simp [ainsert]
  have hb1 : o1.bound = [cid] := hbound
  have hset : setattrOp [(cid, c)] oid o "name" vJohnny
      = ([(cid, (c.updateItemOp oid o1).1)], o1, none) := by
    simp only [setattrOp]
    rw [if_neg (by decide : ¬ ("name" : PropName) ∈ RESTRICTED_NAMES)]
    rw [← ho1, hb1, hnotify]
  exact ⟨hset, herr, hfind1, hfind2⟩

/-- Witness for C4 at a concrete input: writing `name := Johnny` on the bound
example object re-indexes the example collection without an explicit
`update_item` call. -/
theorem claim_C4_witness :
    ((cEx.updateItemOp 1
        { oEx with attrs := ainsert oEx.attrs "name" (PyVal.vstr "Johnny") }).1).findOp
      "name" (PyVal.vstr "Johnny") = Except.ok 1 ∧
    ((cEx.updateItemOp 1
        { oEx with attrs := ainsert oEx.attrs "name" (PyVal.vstr "Johnny") }).1).findOp
      "name" (PyVal.vstr "John")
      = Except.error (Err.keyErrNotFound "name" (PyVal.vstr "John")) := by
  have hfree : ∀ d, alookup cEx.dicts "name" = some d →
      alookup d (PyVal.vstr "Johnny") = none := by
    intro d hd
    have h2 : alookup cEx.dicts "name" = some [(PyVal.vstr "John", 1)] := by decide
    rw [h2] at hd
    injection hd with h3
    rw [← h3]
    decide
  have h := claim_C4 cEx 0 1 oEx (PyVal.vstr "John") (PyVal.vstr "Johnny")
    (micInv_of_micInvC cEx (by decide)) (by decide) (by decide) (by decide)
    (by decide) (by decide) hfree
  exact ⟨h.2.2.1, h.2.2.2⟩

/-- Claim C5 (code bug): the collection is supposed to bind itself to an
auto-update-capable object only when `add` succeeds, but the source appends
itself to `obj._multi_indexed_collections` before the duplicate-key scan, so
a failed `add` leaves the object bound to a collection that does not contain
it.  At the concrete failing input: adding the colliding auto object `2` to
the example collection raises the duplicate `KeyError`, leaves the collection
unchanged, yet the object leaves the call bound to the collection. -/
theorem claim_C5_bug :
    cEx.addOp 0 2 oColl
      = (cEx, { oColl with bound := [0] }, some (Err.keyErrDup "name" (PyVal.vstr "John")))
      ∧ oColl.bound = [] := by
  constructor
  · decide
  · rfl

/-- Claim C6, as stated, is false: with the `auto_update` option left at its
default `false`, `add` still binds itself to every auto-update-capable object
it registers — the stored flag is never consulted.  Counterexample at a
concrete input: the example collection was built with `autoUpdate = false`,
yet adding the fresh auto object `2` mutates its bound list from `[]` to
`[0]`. -/
theorem claim_C6_cex :
    cEx.autoUpdate = false ∧ oFresh.bound = [] ∧ oFresh.isAuto = true ∧
      ((cEx.addOp 0 2 oFresh).2.1).bound = [0] ∧ (cEx.addOp 0 2 oFresh).2.2 = none := by
  refine ⟨rfl, rfl, rfl, ?_, ?_⟩ <;> decide

/-- Claim C6 amended: `add` binds the collection to every auto-update-capable
object it does not already contain, regardless of the `auto_update` option
(the option is stored at construction and never consulted).  The bound list
is extended exactly by this collection, whether the add then commits or
raises the duplicate error. -/
theorem claim_C6_amended (c : MIC) (cid : Nat) (oid : ObjId) (o : ObjState)
    (hreg : alookup c.propdict oid = none) (hauto : o.isAuto = true) :
    ((c.addOp cid oid o).2.1).bound = o.bound ++ [cid] := by
  cases hdc : dupCheck c.dicts (propResults c.props o.attrs) with
  | some e =>
    rw [addOp_eq_dup c cid oid o e hreg hdc, hauto]
    simp
  | none =>
    rw [addOp_eq_commit c cid oid o hreg hdc, hauto]
    simp

/-- Witness for the amended C6 at a concrete input. -/
theorem claim_C6_amended_witness :
    ((cEx.addOp 0 2 oFresh).2.1).bound = oFresh.bound ++ [0] :=
  claim_C6_amended cEx 0 2 oFresh (by decide) (by decide)

/-- Claim C7 (code bug): `keys()` is documented (docstring and spec) to return
the configured property names, and `keys(p)` the values indexed under `p`,
but the source swaps the two branches: `keys()` evaluates `self._dicts[None]`
and raises `KeyError(None)`, while `keys(p)` returns the registry keys — the
stored objects.  Evaluated at the concrete input: on the example collection
`keys()` raises, and `keys("name")` yields the object `1`, not the value
`John`. -/
theorem claim_C7_bug :
    cEx.keysOp none = QueryRes.qerr Err.keyErrNoneKey ∧
    cEx.keysOp (some "name") = QueryRes.objs [1] ∧
    cEx.keysOp (some "name") ≠ QueryRes.vals [PyVal.vstr "John"] := by
  refine ⟨?_, ?_, ?_⟩ <;> decide

/-- Claim C8 (code bug): `values(p)` is documented (docstring and spec) to
produce the stored objects holding an indexed value for `p`, but the source
returns `self._dicts[prop].keys()` — the indexed property values themselves.
Evaluated at the concrete input: on the example collection `values("name")`
yields the value `John`, not the object `1`; the no-argument half
(`values()` yields all tracked objects) does hold. -/
theorem claim_C8_bug :
    cEx.valuesOp (some "name") = QueryRes.vals [PyVal.vstr "John"] ∧
    cEx.valuesOp (some "name") ≠ QueryRes.objs [1] ∧
    cEx.valuesOp none = QueryRes.objs [1] := by
  refine ⟨?_, ?_, ?_⟩ <;> decide

/-- Claim C9 (code bug): `copy` can never return an independent copy: for every
collection state, `__copy__` reads the nonexistent attribute `dicts` (the
field is `_dicts`) and raises `AttributeError`; even absent that, neither
`__copy__` nor `copy` has a return statement, so `copy()` would return
`None`. -/
theorem claim_C9_bug (c : MIC) : c.copyOp = Except.error (Err.attributeError "dicts") := rfl
